import Mathlib

/-!
Verification of the Ethereum bridge query layer
(`ethereum_bridge/src/storage/eth_bridge_queries.rs`).

The Rust code is a read-only query trait over a ledger storage snapshot.
We embed it shallowly: the storage snapshot becomes an explicit `Storage`
record; Rust `expect`-style fatal aborts become `Option.none`; collaborator
functions that live outside the shown sources (PoS queries, the epoched key
lookups, the `VotingPowersMap` container) are modelled from the
specification and marked as such in their doc comments.
-/

namespace EthBridge

/-- A validator's two Ethereum-side identities: bridge-signing (hot) and
governance (cold) addresses. Mirrors `EthAddrBook` from the source. -/
structure EthAddrBook where
  hot_key_addr : Nat
  cold_key_addr : Nat
  deriving DecidableEq, Repr

/-- An active validator together with its bonded stake, as returned by the
PoS collaborator's active-set enumeration. -/
structure WeightedValidator where
  address : Nat
  bonded_stake : Nat
  deriving DecidableEq, Repr

/-- Whether the bridge was initialized at genesis or at a later epoch.
Mirrors `EthBridgeEnabled` in the source. -/
inductive EthBridgeEnabled where
  | AtGenesis : EthBridgeEnabled
  | AtEpoch : Nat → EthBridgeEnabled
  deriving DecidableEq, Repr

/-- Whether the Ethereum bridge is enabled. Mirrors `EthBridgeStatus`. -/
inductive EthBridgeStatus where
  | Disabled : EthBridgeStatus
  | Enabled : EthBridgeEnabled → EthBridgeStatus
  deriving DecidableEq, Repr

/-- Parameter of `must_send_valset_upd`. Mirrors `SendValsetUpd`. -/
inductive SendValsetUpd where
  | Now : SendValsetUpd
  | AtPrevHeight : SendValsetUpd
  deriving DecidableEq, Repr

/-- The structure a cross-chain quorum signs. Mirrors `ValidatorSetArgs`:
`validators` holds hot-key Ethereum addresses and `voting_powers` the
positionally aligned fractional voting powers (the spec's data model types
the powers as `FractionalVotingPower`, a rational in `(0, 1]`). -/
structure ValidatorSetArgs where
  epoch : Nat
  validators : List Nat
  voting_powers : List ℚ
  deriving DecidableEq, Repr

/-- Little-endian 8-byte encoding of a `u64`, as a list of byte values.
Models the borsh encoding of the `Epoch(u64)` payload. -/
def u64ToLeBytes (n : Nat) : List Nat :=
  [n % 256, n / 256 % 256, n / 65536 % 256, n / 16777216 % 256,
   n / 4294967296 % 256, n / 1099511627776 % 256,
   n / 281474976710656 % 256, n / 72057594037927936 % 256]

/-- Little-endian interpretation of a byte list as a natural number. -/
def leBytesToNat (l : List Nat) : Nat :=
  l.foldr (fun b acc => b + 256 * acc) 0

/-- Borsh serialization of `EthBridgeStatus` (derived `BorshSerialize` in the
source): enum discriminants are single bytes, `Epoch` is a `u64` in
little-endian order. -/
def serializeStatus : EthBridgeStatus → List Nat
  | .Disabled => [0]
  | .Enabled .AtGenesis => [1, 0]
  | .Enabled (.AtEpoch e) => [1, 1] ++ u64ToLeBytes e

/-- Borsh deserialization of `EthBridgeStatus` (derived `BorshDeserialize`,
invoked through `try_from_slice`, which fails on malformed or trailing
input): returns `none` exactly when the byte string is not a full, exact
encoding of a status value. -/
def deserializeStatus (bytes : List Nat) : Option EthBridgeStatus :=
  match bytes with
  | [0] => some .Disabled
  | [1, 0] => some (.Enabled .AtGenesis)
  | 1 :: 1 :: rest =>
      if rest.length = 8 ∧ rest.all (· < 256) then
        some (.Enabled (.AtEpoch (leBytesToNat rest)))
      else none
  | _ => none

/-- A status value representable in storage: its epoch payload, if any,
fits in a `u64`. -/
def statusWf : EthBridgeStatus → Prop
  | .Enabled (.AtEpoch e) => e < 2 ^ 64
  | _ => True

instance (s : EthBridgeStatus) : Decidable (statusWf s) := by
  unfold statusWf; cases s with
  | Disabled => exact inferInstance
  | Enabled en => cases en <;> exact inferInstance

/-- The borrowed, read-only ledger storage snapshot, restricted to the data
the bridge queries consume. Direct storage fields mirror `Storage` fields
used by the source (`last_epoch`, `block.pred_epochs.first_block_heights()`,
the raw bytes stored under `active_key()`); the function-typed fields model
the external collaborators (PoS queries and the epoched Ethereum key
lookups), which are outside the shown sources.

Modelled from the spec where the collaborator code is not shown:
`read_validator_eth_hot_key`/`read_validator_eth_cold_key` fold the epoched
public-key lookup and the key-to-`EthAddress` conversion into a single
epoch-indexed optional lookup (spec section 4.4: an epoch-indexed
key-assignment history resolving to the assignment in force at the queried
epoch, absent when the validator had no assignment);
`block_height`/`epoch_first_height` carry the data the valset-update
scheduler consults (the current deciding block height and the first block
height of the current epoch). -/
structure Storage where
  current_epoch : Nat
  last_epoch : Nat
  first_block_heights : List Nat
  block_height : Nat
  epoch_first_height : Nat
  active_key_bytes : Option (List Nat)
  read_validator_eth_hot_key : Nat → Option (Nat → Option Nat)
  read_validator_eth_cold_key : Nat → Option (Nat → Option Nat)
  get_active_validators : Nat → List WeightedValidator
  get_total_voting_power : Nat → Nat

/-- Embedding of `check_bridge_status`: read the bytes under the bridge activation key and
borsh-deserialize them. The two `expect`s of the source (key absent,
deserialization failure) are the `none` outcomes. -/
def check_bridge_status (st : Storage) : Option EthBridgeStatus :=
  st.active_key_bytes.bind deserializeStatus

/-- Embedding of `is_bridge_active`: resolve the persisted status against the current
epoch. `none` propagates a `check_bridge_status` failure. -/
def is_bridge_active (st : Storage) : Option Bool :=
  (check_bridge_status st).map fun status =>
    match status with
    | .Enabled .AtGenesis => true
    | .Enabled (.AtEpoch epoch) => decide (epoch ≤ st.current_epoch)
    | .Disabled => false

/-- Embedding of `get_epoch_start_height`: height `1` when the recorded epoch counter is
`0` (documented workaround for the upstream off-by-one), otherwise the last
recorded first-block height; the source `expect`s that it exists (`none`
models the abort on an empty record). -/
def get_epoch_start_height (st : Storage) : Option Nat :=
  if st.last_epoch = 0 then some 1
  else st.first_block_heights.getLast?

/-- Modelled from the spec: `is_deciding_offset_within_epoch h` (a PoS
collaborator query, not among the shown sources) decides whether the current
block height sits at offset `h` from the epoch boundary; offset `1` means
the second block of the current epoch. -/
def is_deciding_offset_within_epoch (st : Storage) (offset : Nat) : Bool :=
  st.block_height == st.epoch_first_height + offset

/-- Embedding of `must_send_valset_upd`, the `abcipp` build (spec Variant A): `Now` asks
whether we are at deciding offset `1`; `AtPrevHeight` is an unimplemented
TODO returning `false`. -/
def must_send_valset_upd_abcipp (st : Storage) : SendValsetUpd → Bool
  | .Now => is_deciding_offset_within_epoch st 1
  | .AtPrevHeight => false

/-- Embedding of `must_send_valset_upd`, the non-`abcipp` build (spec Variant B):
`AtPrevHeight` always holds; `Now` asks whether we are at deciding
offset `1`. -/
def must_send_valset_upd_no_abcipp (st : Storage) : SendValsetUpd → Bool
  | .AtPrevHeight => true
  | .Now => is_deciding_offset_within_epoch st 1

/-- Embedding of `get_ethbridge_from_namada_addr`: default the epoch to the current one,
then chain the hot-key lookup through the epoched accessor. -/
def get_ethbridge_from_namada_addr (st : Storage) (validator : Nat)
    (epoch : Option Nat) : Option Nat :=
  let epoch := epoch.getD st.current_epoch
  (st.read_validator_eth_hot_key validator).bind fun epk => epk epoch

/-- Embedding of `get_ethgov_from_namada_addr`: default the epoch to the current one,
then chain the cold-key lookup through the epoched accessor. -/
def get_ethgov_from_namada_addr (st : Storage) (validator : Nat)
    (epoch : Option Nat) : Option Nat :=
  let epoch := epoch.getD st.current_epoch
  (st.read_validator_eth_cold_key validator).bind fun epk => epk epoch

/-- Embedding of `get_eth_addr_book`: compose the bridge and governance lookups with
early return, building the address book only when both succeed. -/
def get_eth_addr_book (st : Storage) (validator : Nat)
    (epoch : Option Nat) : Option EthAddrBook := do
  let bridge ← get_ethbridge_from_namada_addr st validator epoch
  let governance ← get_ethgov_from_namada_addr st validator epoch
  pure { hot_key_addr := bridge, cold_key_addr := governance }

/-- The per-validator body of the `get_active_eth_addresses` iterator: look
up the hot and cold keys at the epoch and pair the address book with the
validator's address and bonded stake. The two `expect`s of the source (a
protocol invariant says every active validator registered both keys) are the
`none` outcome. -/
def active_eth_entry (st : Storage) (epoch : Nat)
    (validator : WeightedValidator) :
    Option (EthAddrBook × Nat × Nat) := do
  let hot_key_addr ← get_ethbridge_from_namada_addr st validator.address
    (some epoch)
  let cold_key_addr ← get_ethgov_from_namada_addr st validator.address
    (some epoch)
  pure ({ hot_key_addr := hot_key_addr, cold_key_addr := cold_key_addr },
    validator.address, validator.bonded_stake)

/-- Embedding of `get_active_eth_addresses`: default the epoch, then map the per-validator
body over the PoS active-set enumeration. Each element is `none` exactly
when evaluating that validator's entry would abort in the source. -/
def get_active_eth_addresses (st : Storage) (epoch : Option Nat) :
    List (Option (EthAddrBook × Nat × Nat)) :=
  let epoch := epoch.getD st.current_epoch
  (st.get_active_validators epoch).map (active_eth_entry st epoch)

/-- Modelled from the spec: the deterministic total order on address books
used to break stake ties in the canonical sort (spec section 4.6: any
deterministic order works as long as the whole network agrees; it suggests
stake descending with the address as tie-break). Lexicographic on
(hot address, cold address). -/
def bookLe (b1 b2 : EthAddrBook) : Prop :=
  b1.hot_key_addr < b2.hot_key_addr ∨
    (b1.hot_key_addr = b2.hot_key_addr ∧ b1.cold_key_addr ≤ b2.cold_key_addr)

instance : DecidableRel bookLe := fun b1 b2 =>
  inferInstanceAs (Decidable (b1.hot_key_addr < b2.hot_key_addr ∨
    (b1.hot_key_addr = b2.hot_key_addr ∧ b1.cold_key_addr ≤ b2.cold_key_addr)))

/-- Modelled from the spec: the canonical order on voting-powers-map
entries, stake descending with the address book as tie-break. -/
def vpLe (x y : EthAddrBook × Nat) : Prop :=
  y.2 < x.2 ∨ (x.2 = y.2 ∧ bookLe x.1 y.1)

instance : DecidableRel vpLe := fun x y =>
  inferInstanceAs (Decidable (y.2 < x.2 ∨ (x.2 = y.2 ∧ bookLe x.1 y.1)))

/-- Map insertion for the voting-powers map: overwrite the value at an
existing key, append a fresh key. Models the semantics of inserting into
`VotingPowersMap` (spec: a mapping keyed by address book, keys unique). -/
def insertVp (m : List (EthAddrBook × Nat)) (k : EthAddrBook)
    (v : Nat) : List (EthAddrBook × Nat) :=
  match m with
  | [] => [(k, v)]
  | (k0, v0) :: rest =>
      if k0 = k then (k0, v) :: rest else (k0, v0) :: insertVp rest k v

/-- Modelled from the spec: collecting an iterator of (address book, stake)
pairs into a `VotingPowersMap` inserts each pair in order; a later pair with
an already-present key overwrites the stored stake. -/
def collectVotingPowersMap (l : List (EthAddrBook × Nat)) :
    List (EthAddrBook × Nat) :=
  l.foldl (fun m x => insertVp m x.1 x.2) []

/-- Modelled from the spec: the `get_sorted` helper of `VotingPowersMapExt`
returns the map entries in the canonical deterministic order. -/
def getSortedVotingPowers (m : List (EthAddrBook × Nat)) :
    List (EthAddrBook × Nat) :=
  m.insertionSort vpLe

/-- Modelled from the spec: `FractionalVotingPower::new(numer, denom)`, a
validator's stake as a share of total stake. A numerator exceeding the
denominator is a contract violation (spec section 4.6 step 4), as is a zero
denominator; both are the `none` outcome (the source `expect`s the
constructor's result). -/
def fractionalVotingPower (numer denom : Nat) : Option ℚ :=
  if denom = 0 ∨ denom < numer then none
  else some ((numer : ℚ) / (denom : ℚ))

/-- Option-valued sequencing of a map over a list: `none` as soon as the
function fails on an element, otherwise the list of results. Models
evaluating a Rust iterator whose body may abort. -/
def optionMapM (f : α → Option β) : List α → Option (List β)
  | [] => some []
  | x :: xs => (f x).bind fun y => (optionMapM f xs).map fun ys => y :: ys

/-- The body of `get_validator_set_args` once the active-validator
enumeration and the total voting power have been obtained: collect the
voting-powers map keyed by address book, sort it canonically, annotate each
entry with its fractional voting power, and unzip into the positionally
aligned `validators` and `voting_powers` sequences. -/
def get_validator_set_args_core (epoch : Nat)
    (enumeration : List (EthAddrBook × Nat × Nat))
    (total_power : Nat) : Option ValidatorSetArgs :=
  let voting_powers_map :=
    collectVotingPowersMap (enumeration.map fun x => (x.1, x.2.2))
  (optionMapM (fun x =>
      (fractionalVotingPower x.2 total_power).map fun voting_power =>
        (x.1.hot_key_addr, voting_power))
    (getSortedVotingPowers voting_powers_map)).map fun pairs =>
      { epoch := epoch,
        validators := pairs.map Prod.fst,
        voting_powers := pairs.map Prod.snd }

/-- Embedding of `get_validator_set_args`: default the epoch, run the active-address
enumerator (propagating its fatal outcomes), fetch the PoS total voting
power, and build the canonical validator set arguments. -/
def get_validator_set_args (st : Storage) (epoch : Option Nat) :
    Option ValidatorSetArgs :=
  let epoch := epoch.getD st.current_epoch
  (optionMapM id (get_active_eth_addresses st (some epoch))).bind
    fun enumeration =>
      get_validator_set_args_core epoch enumeration
        (st.get_total_voting_power epoch)

instance : IsTotal (EthAddrBook × Nat) vpLe :=
  ⟨by
    rintro ⟨⟨h1, c1⟩, p1⟩ ⟨⟨h2, c2⟩, p2⟩
    unfold vpLe bookLe
    dsimp only
    omega⟩

instance : IsTrans (EthAddrBook × Nat) vpLe :=
  ⟨by
    rintro ⟨⟨h1, c1⟩, p1⟩ ⟨⟨h2, c2⟩, p2⟩ ⟨⟨h3, c3⟩, p3⟩ hab hbc
    unfold vpLe bookLe at hab hbc ⊢
    dsimp only at hab hbc ⊢
    omega⟩

instance : IsAntisymm (EthAddrBook × Nat) vpLe :=
  ⟨by
    rintro ⟨⟨h1, c1⟩, p1⟩ ⟨⟨h2, c2⟩, p2⟩ hab hba
    unfold vpLe bookLe at hab hba
    dsimp only at hab hba
    have heq : h1 = h2 ∧ c1 = c2 ∧ p1 = p2 := by omega
    obtain ⟨rfl, rfl, rfl⟩ := heq
    rfl⟩

/-- A concrete snapshot: bridge enabled at epoch 5, current epoch 5, epoch
counter still 0, one active validator (address 1, stake 50) whose hot key
resolves to 7 and cold key to 8 at every epoch, second block of the
epoch. -/
def exampleStorage : Storage where
  current_epoch := 5
  last_epoch := 0
  first_block_heights := [0, 10]
  block_height := 11
  epoch_first_height := 10
  active_key_bytes := some (serializeStatus (.Enabled (.AtEpoch 5)))
  read_validator_eth_hot_key := fun v =>
    if v = 1 then some (fun _ => some 7) else none
  read_validator_eth_cold_key := fun v =>
    if v = 1 then some (fun _ => some 8) else none
  get_active_validators := fun _ => [{ address := 1, bonded_stake := 50 }]
  get_total_voting_power := fun _ => 50

/-- A second concrete snapshot: nonzero epoch counter, no activation record
in storage, third block of the epoch. -/
def exampleStorage2 : Storage :=
  { exampleStorage with
      last_epoch := 3
      block_height := 12
      active_key_bytes := none }

/-- A third concrete snapshot: malformed bytes under the activation key. -/
def exampleStorage3 : Storage :=
  { exampleStorage with active_key_bytes := some [9, 9] }

end EthBridge

namespace EthBridge

/-- Reassembling the eight little-endian bytes of a `u64` recovers it. -/
theorem leBytes_explicit (n : Nat) (h : n < 2 ^ 64) :
    leBytesToNat [n % 256, n / 256 % 256, n / 65536 % 256, n / 16777216 % 256,
      n / 4294967296 % 256, n / 1099511627776 % 256,
      n / 281474976710656 % 256, n / 72057594037927936 % 256] = n := by
  have h2 : n < 18446744073709551616 := by omega
  simp only [leBytesToNat, List.foldr_cons, List.foldr_nil]
  omega

/-- Round-trip of the status codec on representable values. -/
theorem deserialize_serialize (s : EthBridgeStatus) (hs : statusWf s) :
    deserializeStatus (serializeStatus s) = some s := by
  cases s with
  | Disabled => rfl
  | Enabled en =>
    cases en with
    | AtGenesis => rfl
    | AtEpoch e =>
      simp only [statusWf] at hs
      simp only [serializeStatus, deserializeStatus, u64ToLeBytes,
        List.cons_append, List.nil_append]
      rw [if_pos]
      · rw [leBytes_explicit e hs]
      · refine ⟨rfl, ?_⟩
        simp only [List.all_cons, List.all_nil, Bool.and_eq_true, Bool.and_true,
          decide_eq_true_eq]
        omega

/-- Claim C1: `is_bridge_active` returns `false` when the persisted status is
`Disabled`; `true` when it is `Enabled(AtGenesis)`; and for
`Enabled(AtEpoch(e))` it returns `true` iff the current epoch is at least
`e`, hence `false` at every epoch strictly below `e`. -/
theorem is_bridge_active_spec (st : Storage) (s : EthBridgeStatus)
    (h : check_bridge_status st = some s) :
    (s = .Disabled → is_bridge_active st = some false) ∧
    (s = .Enabled .AtGenesis → is_bridge_active st = some true) ∧
    (∀ e, s = .Enabled (.AtEpoch e) →
      ((is_bridge_active st = some true ↔ e ≤ st.current_epoch) ∧
        (is_bridge_active st = some false ↔ st.current_epoch < e))) := by
  unfold is_bridge_active
  rw [h]
  refine ⟨?_, ?_, ?_⟩
  · rintro rfl; rfl
  · rintro rfl; rfl
  · rintro e rfl
    simp only [Option.map_some', Option.some.injEq, decide_eq_true_eq,
      decide_eq_false_iff_not, Nat.not_le]
    exact ⟨trivial, trivial⟩

/-- Witness for C1 at a concrete snapshot: bridge enabled at epoch 5,
current epoch 5. -/
theorem is_bridge_active_spec_witness :
    is_bridge_active exampleStorage = some true :=
  ((is_bridge_active_spec exampleStorage (.Enabled (.AtEpoch 5))
    (by decide)).2.2 5 rfl).1.mpr (by decide)

/-- Claim C2: in the non-`abcipp` protocol variant (Variant B),
`must_send_valset_upd AtPrevHeight` is always `true`, and
`must_send_valset_upd Now` is `true` iff the current block is the second
block of its epoch (deciding offset `1` from the epoch boundary). -/
theorem must_send_valset_upd_no_abcipp_spec (st : Storage) :
    must_send_valset_upd_no_abcipp st .AtPrevHeight = true ∧
    (must_send_valset_upd_no_abcipp st .Now = true ↔
      st.block_height = st.epoch_first_height + 1) := by
  refine ⟨rfl, ?_⟩
  simp [must_send_valset_upd_no_abcipp, is_deciding_offset_within_epoch]

/-- Witness for C2 at a concrete snapshot sitting at the second block of
its epoch. -/
theorem must_send_valset_upd_no_abcipp_spec_witness :
    must_send_valset_upd_no_abcipp exampleStorage .AtPrevHeight = true ∧
    must_send_valset_upd_no_abcipp exampleStorage .Now = true :=
  ⟨(must_send_valset_upd_no_abcipp_spec exampleStorage).1,
   (must_send_valset_upd_no_abcipp_spec exampleStorage).2.mpr (by decide)⟩

/-- Claim C6: in the `abcipp` protocol variant (Variant A),
`must_send_valset_upd Now` is `true` iff the current block is exactly the
second block of its epoch, and `must_send_valset_upd AtPrevHeight` is always
`false`. -/
theorem must_send_valset_upd_abcipp_spec (st : Storage) :
    (must_send_valset_upd_abcipp st .Now = true ↔
      st.block_height = st.epoch_first_height + 1) ∧
    must_send_valset_upd_abcipp st .AtPrevHeight = false := by
  refine ⟨?_, rfl⟩
  simp [must_send_valset_upd_abcipp, is_deciding_offset_within_epoch]

/-- Witness for C6 at concrete snapshots at the second and the third block
of their epoch. -/
theorem must_send_valset_upd_abcipp_spec_witness :
    must_send_valset_upd_abcipp exampleStorage .Now = true ∧
    must_send_valset_upd_abcipp exampleStorage2 .Now = false ∧
    must_send_valset_upd_abcipp exampleStorage .AtPrevHeight = false := by
  refine ⟨(must_send_valset_upd_abcipp_spec exampleStorage).1.mpr (by decide),
    ?_, (must_send_valset_upd_abcipp_spec exampleStorage).2⟩
  have h := (must_send_valset_upd_abcipp_spec exampleStorage2).1
  revert h
  decide

/-- Claim C3: whenever the recorded epoch counter `last_epoch` is `0`,
`get_epoch_start_height` returns height `1` regardless of any other stored
height data; for a nonzero recorded epoch it returns the last recorded
first-block height. -/
theorem get_epoch_start_height_spec (st : Storage) :
    (st.last_epoch = 0 → get_epoch_start_height st = some 1) ∧
    (st.last_epoch ≠ 0 → ∀ l h, st.first_block_heights = l ++ [h] →
      get_epoch_start_height st = some h) := by
  unfold get_epoch_start_height
  constructor
  · intro h0
    rw [if_pos h0]
  · intro hne l h hl
    rw [if_neg hne, hl, List.getLast?_concat]

/-- Witness for C3: a snapshot with epoch counter `0` (and a stored `0`
height) yields height `1`; a snapshot with counter `3` yields its last
recorded first-block height. -/
theorem get_epoch_start_height_spec_witness :
    get_epoch_start_height exampleStorage = some 1 ∧
    get_epoch_start_height exampleStorage2 = some 10 :=
  ⟨(get_epoch_start_height_spec exampleStorage).1 rfl,
   (get_epoch_start_height_spec exampleStorage2).2 (by decide) [0] 10 rfl⟩

/-- Claim C9: `check_bridge_status` fails fatally (here: `none`) when the
activation record is absent or does not deserialize; when the record holds
a well-formed encoding it returns the deserialized status unchanged. The
embedding is a pure function of the snapshot, so no state is modified. -/
theorem check_bridge_status_spec (st : Storage) :
    (st.active_key_bytes = none → check_bridge_status st = none) ∧
    (∀ b, st.active_key_bytes = some b → deserializeStatus b = none →
      check_bridge_status st = none) ∧
    (∀ s, statusWf s → st.active_key_bytes = some (serializeStatus s) →
      check_bridge_status st = some s) := by
  refine ⟨fun h => ?_, fun b hb hd => ?_, fun s hwf hb => ?_⟩
  · unfold check_bridge_status
    rw [h]
    rfl
  · unfold check_bridge_status
    rw [hb]
    simpa using hd
  · unfold check_bridge_status
    rw [hb]
    simpa using deserialize_serialize s hwf

/-- Witness for C9: absent record, malformed record, and a well-formed
record holding `Enabled(AtEpoch(5))`. -/
theorem check_bridge_status_spec_witness :
    check_bridge_status exampleStorage2 = none ∧
    check_bridge_status exampleStorage3 = none ∧
    check_bridge_status exampleStorage = some (.Enabled (.AtEpoch 5)) :=
  ⟨(check_bridge_status_spec exampleStorage2).1 rfl,
   (check_bridge_status_spec exampleStorage3).2.1 [9, 9] rfl (by decide),
   (check_bridge_status_spec exampleStorage).2.2 _ (by decide) rfl⟩

/-- Claim C7: `get_eth_addr_book` succeeds iff both the bridge (hot) and the
governance (cold) key lookups succeed at the queried epoch (which defaults
to the current epoch when omitted); on success the hot key becomes
`hot_key_addr` and the governance key `cold_key_addr`; if either lookup is
`none` the result is `none`. -/
theorem get_eth_addr_book_spec (st : Storage) (v : Nat) (e : Option Nat) :
    ((get_eth_addr_book st v e).isSome ↔
      (get_ethbridge_from_namada_addr st v e).isSome ∧
        (get_ethgov_from_namada_addr st v e).isSome) ∧
    (∀ hk ck, get_ethbridge_from_namada_addr st v e = some hk →
      get_ethgov_from_namada_addr st v e = some ck →
      get_eth_addr_book st v e =
        some { hot_key_addr := hk, cold_key_addr := ck }) ∧
    (get_eth_addr_book st v none =
      get_eth_addr_book st v (some st.current_epoch)) := by
  refine ⟨?_, ?_, rfl⟩
  · cases hb : get_ethbridge_from_namada_addr st v e <;>
      cases hg : get_ethgov_from_namada_addr st v e <;>
        simp [get_eth_addr_book, hb, hg]
  · intro hk ck hb hg
    simp [get_eth_addr_book, hb, hg]

/-- Witness for C7: at the concrete snapshot, validator 1 has hot key 7 and
cold key 8, so its address book is `{hot 7, cold 8}`. -/
theorem get_eth_addr_book_spec_witness :
    get_eth_addr_book exampleStorage 1 none =
      some { hot_key_addr := 7, cold_key_addr := 8 } :=
  (get_eth_addr_book_spec exampleStorage 1 none).2.1 7 8 (by decide) (by decide)

/-- The iterator body of the enumerator is the address-book lookup mapped
over with the validator's address and stake. -/
theorem active_eth_entry_eq (st : Storage) (epoch : Nat)
    (v : WeightedValidator) :
    active_eth_entry st epoch v =
      (get_eth_addr_book st v.address (some epoch)).map
        fun b => (b, v.address, v.bonded_stake) := by
  cases hb : get_ethbridge_from_namada_addr st v.address (some epoch) <;>
    cases hg : get_ethgov_from_namada_addr st v.address (some epoch) <;>
      simp [active_eth_entry, get_eth_addr_book, hb, hg]

/-- Inserting a key not yet present appends it. -/
theorem insertVp_fresh (m : List (EthAddrBook × Nat)) (k : EthAddrBook)
    (v : Nat) (h : k ∉ m.map Prod.fst) : insertVp m k v = m ++ [(k, v)] := by
  induction m with
  | nil => rfl
  | cons x rest ih =>
    obtain ⟨k0, v0⟩ := x
    simp only [List.map_cons, List.mem_cons] at h
    push_neg at h
    simp only [insertVp]
    rw [if_neg fun he => h.1 he.symm, ih h.2]
    rfl

/-- Folding insertions of pairwise-fresh keys onto a map appends them. -/
theorem collect_aux (l : List (EthAddrBook × Nat)) :
    ∀ m : List (EthAddrBook × Nat),
      (m.map Prod.fst ++ l.map Prod.fst).Nodup →
      l.foldl (fun m x => insertVp m x.1 x.2) m = m ++ l := by
  induction l with
  | nil => intro m _; simp
  | cons x rest ih =>
    intro m hm
    obtain ⟨k, v⟩ := x
    simp only [List.map_cons] at hm
    have hk : k ∉ m.map Prod.fst := by
      rw [List.nodup_append] at hm
      exact fun hmem => hm.2.2 hmem (List.mem_cons_self k _)
    simp only [List.foldl_cons]
    rw [insertVp_fresh m k v hk]
    have hm2 : ((m ++ [(k, v)]).map Prod.fst ++ rest.map Prod.fst).Nodup := by
      have : (m ++ [(k, v)]).map Prod.fst ++ rest.map Prod.fst =
          m.map Prod.fst ++ k :: rest.map Prod.fst := by
        simp
      rw [this]
      exact hm
    rw [ih (m ++ [(k, v)]) hm2]
    simp

/-- Collecting an enumeration with pairwise-distinct keys into the
voting-powers map keeps it intact. -/
theorem collect_self (l : List (EthAddrBook × Nat))
    (h : (l.map Prod.fst).Nodup) : collectVotingPowersMap l = l := by
  unfold collectVotingPowersMap
  have := collect_aux l [] (by simpa using h)
  simpa using this

/-- The canonical sort depends only on the multiset of entries: permuted
inputs sort to the same list (the order is total and antisymmetric). -/
theorem getSorted_perm_eq (l1 l2 : List (EthAddrBook × Nat))
    (hperm : l1.Perm l2) :
    getSortedVotingPowers l1 = getSortedVotingPowers l2 :=
  List.eq_of_perm_of_sorted
    (((List.perm_insertionSort vpLe l1).trans hperm).trans
      (List.perm_insertionSort vpLe l2).symm)
    (List.sorted_insertionSort vpLe l1) (List.sorted_insertionSort vpLe l2)

/-- The combinator `optionMapM` succeeds elementwise when the function does. -/
theorem optionMapM_eq_some_map (f : α → Option β) (g : α → β)
    (l : List α) (h : ∀ x ∈ l, f x = some (g x)) :
    optionMapM f l = some (l.map g) := by
  induction l with
  | nil => rfl
  | cons x xs ih =>
    simp only [optionMapM, h x (List.mem_cons_self x xs),
      ih fun y hy => h y (List.mem_cons_of_mem x hy), Option.some_bind,
      Option.map_some', List.map_cons]

/-- Dividing each summand of a rational sum by a common constant divides
the sum. -/
theorem list_sum_div (l : List α) (f : α → ℚ) (c : ℚ) :
    (l.map fun x => f x / c).sum = (l.map f).sum / c := by
  induction l with
  | nil => simp
  | cons x xs ih => simp [ih, add_div]

/-- Casting a sum of naturals to the rationals sums the casts. -/
theorem list_sum_natCast (l : List α) (f : α → Nat) :
    (l.map fun x => ((f x : Nat) : ℚ)).sum = (((l.map f).sum : Nat) : ℚ) := by
  induction l with
  | nil => simp
  | cons x xs ih => simp [ih]

/-- Claim C8: the enumerator yields exactly one entry per validator in the
PoS active set at the (possibly defaulted) epoch, positionally aligned with
it; a validator's entry is the fatal outcome (`none`) exactly when its
address-book lookup fails, and otherwise carries its address book, address
and bonded stake — no active validator is ever silently skipped. -/
theorem get_active_eth_addresses_spec (st : Storage) (e : Option Nat) :
    (get_active_eth_addresses st e).length =
      (st.get_active_validators (e.getD st.current_epoch)).length ∧
    (∀ (i : Nat) (v : WeightedValidator),
      (st.get_active_validators (e.getD st.current_epoch))[i]? = some v →
      (get_active_eth_addresses st e)[i]? =
        some ((get_eth_addr_book st v.address
            (some (e.getD st.current_epoch))).map
          fun b => (b, v.address, v.bonded_stake))) := by
  simp only [get_active_eth_addresses]
  constructor
  · exact List.length_map _ _
  · intro i v hv
    rw [List.getElem?_map, hv, Option.map_some', active_eth_entry_eq]

/-- Witness for C8: the single active validator of the concrete snapshot
gets the single entry, carrying its address book, address and stake. -/
theorem get_active_eth_addresses_spec_witness :
    (get_active_eth_addresses exampleStorage none)[0]? =
      some (some ({ hot_key_addr := 7, cold_key_addr := 8 }, 1, 50)) := by
  have h := (get_active_eth_addresses_spec exampleStorage none).2 0
    { address := 1, bonded_stake := 50 } (by decide)
  rw [h]
  decide

/-- Evaluation of the validator-set builder on a two-validator enumeration
sharing one address book: the map collection keeps only the later stake. -/
theorem collision_eval (epoch : Nat) (k : EthAddrBook)
    (a1 a2 s1 s2 total_power : Nat)
    (hle : s2 ≤ total_power) (hpos : 0 < total_power) :
    get_validator_set_args_core epoch [(k, a1, s1), (k, a2, s2)] total_power =
      some { epoch := epoch, validators := [k.hot_key_addr],
             voting_powers := [(s2 : ℚ) / (total_power : ℚ)] } := by
  have h1 : collectVotingPowersMap [(k, s1), (k, s2)] = [(k, s2)] := by
    simp [collectVotingPowersMap, insertVp]
  have h2 : getSortedVotingPowers [(k, s2)] = [(k, s2)] := rfl
  have h3 : fractionalVotingPower s2 total_power =
      some ((s2 : ℚ) / (total_power : ℚ)) := by
    unfold fractionalVotingPower
    rw [if_neg (by omega)]
  simp only [get_validator_set_args_core, List.map_cons, List.map_nil]
  rw [h1, h2]
  simp only [optionMapM, h3, Option.some_bind, Option.map_some',
    List.map_cons, List.map_nil]

/-- Claim C10: two distinct active validators sharing one address book are
collapsed by `get_validator_set_args` into a single voting-powers-map entry
whose stake is that of only one of them (the later one overwrites, stakes
are not summed), so the output has one validator instead of two and the
other validator's stake is dropped. -/
theorem addr_book_collision_collapse (epoch : Nat) (k : EthAddrBook)
    (a1 a2 s1 s2 total_power : Nat) (_hdist : a1 ≠ a2)
    (hle : s2 ≤ total_power) (hpos : 0 < total_power) :
    get_validator_set_args_core epoch [(k, a1, s1), (k, a2, s2)] total_power =
      some { epoch := epoch, validators := [k.hot_key_addr],
             voting_powers := [(s2 : ℚ) / (total_power : ℚ)] } ∧
    ([(k, a1, s1), (k, a2, s2)] : List (EthAddrBook × Nat × Nat)).length = 2 :=
  ⟨collision_eval epoch k a1 a2 s1 s2 total_power hle hpos, rfl⟩

/-- Witness for C10 at concrete inputs: address book (7, 8) shared by
validators 1 and 2 with stakes 1 and 2, total power 3. -/
theorem addr_book_collision_collapse_witness :
    get_validator_set_args_core 0
        [({ hot_key_addr := 7, cold_key_addr := 8 }, 1, 1),
         ({ hot_key_addr := 7, cold_key_addr := 8 }, 2, 2)] 3 =
      some { epoch := 0, validators := [7],
             voting_powers := [(2 : ℚ) / (3 : ℚ)] } ∧
    ([({ hot_key_addr := 7, cold_key_addr := 8 }, 1, 1),
      ({ hot_key_addr := 7, cold_key_addr := 8 }, 2, 2)] :
       List (EthAddrBook × Nat × Nat)).length = 2 :=
  addr_book_collision_collapse 0 { hot_key_addr := 7, cold_key_addr := 8 }
    1 2 1 2 3 (by decide) (by decide) (by decide)

/-- Counterexample to claim C4 as stated: two enumerations that are
permutations of each other (two validators sharing one address book, with
different stakes) yield different `ValidatorSetArgs`, because collecting
into the voting-powers map lets the later entry overwrite the earlier one. -/
theorem validator_set_args_perm_counterexample :
    (([({ hot_key_addr := 7, cold_key_addr := 8 }, 1, 1),
       ({ hot_key_addr := 7, cold_key_addr := 8 }, 2, 2)] :
        List (EthAddrBook × Nat × Nat)).Perm
      [({ hot_key_addr := 7, cold_key_addr := 8 }, 2, 2),
       ({ hot_key_addr := 7, cold_key_addr := 8 }, 1, 1)]) ∧
    get_validator_set_args_core 0
        [({ hot_key_addr := 7, cold_key_addr := 8 }, 1, 1),
         ({ hot_key_addr := 7, cold_key_addr := 8 }, 2, 2)] 3 ≠
      get_validator_set_args_core 0
        [({ hot_key_addr := 7, cold_key_addr := 8 }, 2, 2),
         ({ hot_key_addr := 7, cold_key_addr := 8 }, 1, 1)] 3 := by
  constructor
  · decide
  · rw [collision_eval 0 { hot_key_addr := 7, cold_key_addr := 8 } 1 2 1 2 3
      (by omega) (by omega),
      collision_eval 0 { hot_key_addr := 7, cold_key_addr := 8 } 2 1 2 1 3
      (by omega) (by omega)]
    simp only [ne_eq, Option.some.injEq, ValidatorSetArgs.mk.injEq,
      List.cons.injEq, and_true, true_and, not_and]
    intro h
    norm_num at h

/-- Claim C4, amended: when the enumerated address books are pairwise
distinct (so no map entry is overwritten), `get_validator_set_args` is
order-independent — any permutation of the active-validator enumeration
yields identical `ValidatorSetArgs`. -/
theorem validator_set_args_perm_invariant (epoch : Nat)
    (l1 l2 : List (EthAddrBook × Nat × Nat)) (total_power : Nat)
    (hperm : l1.Perm l2) (hnodup : (l1.map fun x => x.1).Nodup) :
    get_validator_set_args_core epoch l1 total_power =
      get_validator_set_args_core epoch l2 total_power := by
  have hpermP : (l1.map fun x => (x.1, x.2.2)).Perm
      (l2.map fun x => (x.1, x.2.2)) := hperm.map _
  have hkeys1 : ((l1.map fun x => (x.1, x.2.2)).map Prod.fst).Nodup := by
    rw [List.map_map]
    exact hnodup
  have hkeys2 : ((l2.map fun x => (x.1, x.2.2)).map Prod.fst).Nodup :=
    ((hpermP.map Prod.fst).nodup_iff).mp hkeys1
  simp only [get_validator_set_args_core]
  rw [collect_self _ hkeys1, collect_self _ hkeys2,
    getSorted_perm_eq _ _ hpermP]

/-- Witness for amended C4: two permuted two-validator enumerations with
distinct address books give the same output. -/
theorem validator_set_args_perm_invariant_witness :
    get_validator_set_args_core 5
        [({ hot_key_addr := 1, cold_key_addr := 2 }, 10, 50),
         ({ hot_key_addr := 3, cold_key_addr := 4 }, 11, 30)] 80 =
      get_validator_set_args_core 5
        [({ hot_key_addr := 3, cold_key_addr := 4 }, 11, 30),
         ({ hot_key_addr := 1, cold_key_addr := 2 }, 10, 50)] 80 :=
  validator_set_args_perm_invariant 5 _ _ 80 (by decide) (by decide)

/-- Counterexample to claim C5 as stated: a non-empty active-validator
enumeration whose total power (the sum of its stakes, 2) is positive, yet
the fractional voting powers of the resulting `ValidatorSetArgs` sum to
1/2, not 1, because the two validators share an address book and one stake
is dropped by the map collection. -/
theorem voting_power_sum_counterexample :
    ([({ hot_key_addr := 7, cold_key_addr := 8 }, 1, 1),
      ({ hot_key_addr := 7, cold_key_addr := 8 }, 2, 1)] :
       List (EthAddrBook × Nat × Nat)) ≠ [] ∧
    (([({ hot_key_addr := 7, cold_key_addr := 8 }, 1, 1),
       ({ hot_key_addr := 7, cold_key_addr := 8 }, 2, 1)] :
        List (EthAddrBook × Nat × Nat)).map fun x => x.2.2).sum = 2 ∧
    (0 : Nat) < 2 ∧
    ((get_validator_set_args_core 0
        [({ hot_key_addr := 7, cold_key_addr := 8 }, 1, 1),
         ({ hot_key_addr := 7, cold_key_addr := 8 }, 2, 1)] 2).map
      fun args => args.voting_powers.sum) ≠ some 1 := by
  refine ⟨by decide, by decide, by decide, ?_⟩
  rw [collision_eval 0 { hot_key_addr := 7, cold_key_addr := 8 } 1 2 1 1 2
    (by omega) (by omega)]
  simp only [Option.map_some', ne_eq, Option.some.injEq, List.sum_cons,
    List.sum_nil, add_zero]
  norm_num

/-- Claim C5, amended: for a non-empty enumeration with pairwise-distinct
address books, when the PoS-reported total power equals the sum of the
enumerated stakes and is positive, `get_validator_set_args` succeeds and
its fractional voting powers sum to exactly 1. -/
theorem voting_power_sum_one (epoch : Nat)
    (l : List (EthAddrBook × Nat × Nat)) (total_power : Nat)
    (_hne : l ≠ []) (hnodup : (l.map fun x => x.1).Nodup)
    (htot : total_power = (l.map fun x => x.2.2).sum)
    (hpos : 0 < total_power) :
    (get_validator_set_args_core epoch l total_power).map
      (fun args => args.voting_powers.sum) = some 1 := by
  simp only [get_validator_set_args_core]
  set lp := l.map fun x => (x.1, x.2.2) with hlp
  have hkeys : (lp.map Prod.fst).Nodup := by
    rw [hlp, List.map_map]
    exact hnodup
  have hsort : (getSortedVotingPowers lp).Perm lp :=
    List.perm_insertionSort vpLe lp
  have hbound : ∀ x ∈ getSortedVotingPowers lp, x.2 ≤ total_power := by
    intro x hx
    have hx' : x ∈ lp := hsort.mem_iff.mp hx
    have hmem : x.2 ∈ lp.map Prod.snd := List.mem_map_of_mem Prod.snd hx'
    have hle : x.2 ≤ (lp.map Prod.snd).sum := List.le_sum_of_mem hmem
    have hsame : (lp.map Prod.snd).sum = total_power := by
      rw [hlp, List.map_map]
      exact htot.symm
    omega
  have hmapm : optionMapM (fun x =>
      (fractionalVotingPower x.2 total_power).map
        fun voting_power => (x.1.hot_key_addr, voting_power))
      (getSortedVotingPowers lp) =
      some ((getSortedVotingPowers lp).map
        fun x => (x.1.hot_key_addr, (x.2 : ℚ) / (total_power : ℚ))) := by
    apply optionMapM_eq_some_map
    intro x hx
    unfold fractionalVotingPower
    rw [if_neg (by have := hbound x hx; omega)]
    rfl
  rw [collect_self lp hkeys, hmapm]
  simp only [Option.map_some', Option.some.injEq]
  rw [List.map_map]
  show ((getSortedVotingPowers lp).map
    fun x => ((x.2 : ℚ) / (total_power : ℚ))).sum = 1
  rw [list_sum_div, list_sum_natCast _ Prod.snd,
    (hsort.map Prod.snd).sum_eq]
  have hsame : (lp.map Prod.snd).sum = total_power := by
    rw [hlp, List.map_map]
    exact htot.symm
  rw [hsame]
  exact div_self (Nat.cast_ne_zero.mpr (by omega))

/-- Witness for amended C5 at the spec's scenario 3: stakes 50, 30, 20,
total 100; the fractional powers sum to 1. -/
theorem voting_power_sum_one_witness :
    (get_validator_set_args_core 5
        [({ hot_key_addr := 1, cold_key_addr := 2 }, 10, 50),
         ({ hot_key_addr := 3, cold_key_addr := 4 }, 11, 30),
         ({ hot_key_addr := 5, cold_key_addr := 6 }, 12, 20)] 100).map
      (fun args => args.voting_powers.sum) = some 1 :=
  voting_power_sum_one 5
    [({ hot_key_addr := 1, cold_key_addr := 2 }, 10, 50),
     ({ hot_key_addr := 3, cold_key_addr := 4 }, 11, 30),
     ({ hot_key_addr := 5, cold_key_addr := 6 }, 12, 20)] 100
    (by decide) (by decide) (by decide) (by decide)

end EthBridge
